import Mathlib

/-!
Verification development for the edat library: a heterogeneous record store
(`Table`, from include/edat.h) and a recursive-descent text parser
(src/parsers.cpp) that populates such tables.

The C++ code is shallowly embedded: `std::string_view` cursors become
`List Char` suffixes, `std::vector` becomes `List`, `std::unordered_map`
becomes an association list with `emplace` semantics (insert only if the key
is absent, which is exactly what `std::unordered_map::emplace` does), and the
open template parameter `T` of the table operations becomes the closed
universe `Ty` of value types actually used by the repository (int, string,
int array, string array, nested table).  Machine indices are `Nat`, with
`size_t(-1)` rendered as the explicit sentinel constant below.
-/

/-- Sentinel value used by the C++ code for "no index": `size_t(-1)`. -/
def sentinelIdx : Nat := 2 ^ 64 - 1

/-- Indexing with an explicit default, the embedding of `operator[]` reads
whose in-boundedness is tracked separately by the well-formedness predicate. -/
def nthD {α : Type} (l : List α) (i : Nat) (d : α) : α :=
  match l, i with
  | [], _ => d
  | a :: _, 0 => a
  | _ :: l, i + 1 => nthD l i d

/-- Association-list lookup, the embedding of `std::unordered_map::find`. -/
def alookup {α β : Type} [DecidableEq α] (m : List (α × β)) (k : α) : Option β :=
  match m with
  | [] => none
  | (a, b) :: rest => if k = a then some b else alookup rest k

/-- Association-list insert with `std::unordered_map::emplace` semantics:
the entry is added only when the key is absent; an existing binding wins. -/
def aemplace {α β : Type} [DecidableEq α] (m : List (α × β)) (k : α) (v : β) :
    List (α × β) :=
  match alookup m k with
  | some _ => m
  | none => m ++ [(k, v)]

/-- One record of `Table` (edat.h lines 28-33): a name index, a storage index
and a slot index inside that storage. -/
structure TableRecord where
  nameId : Nat
  storageId : Nat
  idx : Nat
deriving DecidableEq

/-- The closed universe of value types the repository stores in tables:
`int`, `std::string`, `std::vector<int>`, `std::vector<std::string>` and
`edat::Table`.  It plays the role of `typeid(T).hash_code()`: distinct types
have distinct `Ty` values. -/
inductive Ty where
  | tint
  | tstr
  | tintArr
  | tstrArr
  | ttable
deriving DecidableEq, Fintype

/-- A stored value.  `vtable` carries the five components of a nested
`Table` (the structure `Table` below is its record-of-fields view). -/
inductive Val : Type where
  | vint : Int → Val
  | vstr : String → Val
  | vintArr : List Int → Val
  | vstrArr : List String → Val
  | vtable : List String → List TableRecord → List (String × Nat) →
      List (Ty × Nat) → List (Ty × List Val) → Val

/-- The static C++ type of a value. -/
def tyOf : Val → Ty
  | .vint _ => .tint
  | .vstr _ => .tstr
  | .vintArr _ => .tintArr
  | .vstrArr _ => .tstrArr
  | .vtable _ _ _ _ _ => .ttable

/-- The embedding of `edat::Table` (edat.h lines 26-157).  A storage
(`TypedStorage<T>`) is a pair of its element type and its value sequence;
`typeHashMap` maps an element type to the index of its storage, and
`nameMap` maps a field name to the index of its record. -/
structure Table where
  names : List String
  records : List TableRecord
  nameMap : List (String × Nat)
  typeHashMap : List (Ty × Nat)
  storages : List (Ty × List Val)

/-- A freshly constructed `Table`. -/
def Table.empty : Table := ⟨[], [], [], [], []⟩

/-- Repackage a table as a storable value. -/
def Val.ofTable (t : Table) : Val :=
  .vtable t.names t.records t.nameMap t.typeHashMap t.storages

/-- Storage access with the default the well-formedness predicate makes
unreachable. -/
def stor (t : Table) (j : Nat) : Ty × List Val :=
  nthD t.storages j (.tint, [])

/-- The sentinel record `{ size_t(-1), size_t(-1), size_t(-1) }` returned by
`findIndex` for an unknown name. -/
def noRecord : TableRecord := ⟨sentinelIdx, sentinelIdx, sentinelIdx⟩

/-- Embedding of `Table::findIndex` (edat.h lines 55-61). -/
def Table.findIndex (t : Table) (name : String) : TableRecord :=
  match alookup t.nameMap name with
  | none => noRecord
  | some i => nthD t.records i noRecord

/-- Embedding of `Table::getStorageByType` (edat.h lines 89-98): the storage
index registered for a type, or `size_t(-1)`. -/
def Table.getStorageByType (t : Table) (τ : Ty) : Nat :=
  match alookup t.typeHashMap τ with
  | none => sentinelIdx
  | some j => j

/-- Embedding of `Table::getOrCreateStorageForType` (edat.h lines 75-87):
registers a fresh empty storage for the type when none exists yet. -/
def Table.getOrCreateStorageForType (t : Table) (τ : Ty) : Table × Nat :=
  match alookup t.typeHashMap τ with
  | some j => (t, j)
  | none =>
    let j := t.storages.length
    ({ t with typeHashMap := t.typeHashMap ++ [(τ, j)],
              storages := t.storages ++ [(τ, [])] }, j)

/-- Embedding of `Table::getOr` (edat.h lines 100-107).  The read through
`getTypedStorage<T>` is an unchecked cast in C++; here it surfaces as reading
the slot of whatever storage the record points to. -/
def Table.getOr (t : Table) (τ : Ty) (name : String) (d : Val) : Val :=
  let r := t.findIndex name
  if r.storageId < t.storages.length ∧ r.storageId = t.getStorageByType τ then
    nthD (stor t r.storageId).2 r.idx d
  else d

/-- Embedding of `Table::get` (edat.h lines 109-115): the callback is invoked
exactly when this returns `some`. -/
def Table.getVal (t : Table) (τ : Ty) (name : String) : Option Val :=
  let r := t.findIndex name
  if r.storageId < t.storages.length ∧ r.storageId = t.getStorageByType τ then
    some (nthD (stor t r.storageId).2 r.idx (.vint 0))
  else none

/-- Embedding of `Table::set` (edat.h lines 117-141).  When the name already
has a record, the C++ writes the new value through the unchecked cast
`getTypedStorage<T>(r.storageId)` without comparing `T` against the
element type of the storage; the embedding renders that reinterpretation as
storing the (differently typed) value into the existing slot. -/
def Table.set (t : Table) (name : String) (v : Val) : Table :=
  let r := t.findIndex name
  if r.storageId < t.storages.length then
    let st := stor t r.storageId
    { t with storages := t.storages.set r.storageId (st.1, st.2.set r.idx v) }
  else
    match t.getOrCreateStorageForType (tyOf v) with
    | (t1, storageId) =>
      let st := stor t1 storageId
      let idx := st.2.length
      let t2 := { t1 with storages := t1.storages.set storageId (st.1, st.2 ++ [v]) }
      let nameId := t2.names.length
      let recordIdx := t2.records.length
      { t2 with names := t2.names ++ [name],
                records := t2.records ++ [⟨nameId, storageId, idx⟩],
                nameMap := aemplace t2.nameMap name recordIdx }

/-- Embedding of `Table::getAll` (edat.h lines 143-156), the
`forEach<T>` of the spec: the list of `(name, value)` pairs the visitor is invoked on,
in order of invocation. -/
def Table.getAll (t : Table) (τ : Ty) : List (String × Val) :=
  match alookup t.typeHashMap τ with
  | none => []
  | some j =>
    let st := stor t j
    t.records.filterMap fun r =>
      if r.storageId = j then
        some (nthD t.names r.nameId "", nthD st.2 r.idx (.vint 0))
      else none

mutual
/-- Modelled from the spec: `cloneTable` is called by `parseView`
(src/parsers.cpp lines 237 and 290) but its definition is not under src/.
Per the spec it produces a deep copy of a table: all of its fields and
nested structures duplicated by value.  `cloneVal` copies one value. -/
def cloneVal : Val → Val
  | .vint n => .vint n
  | .vstr s => .vstr s
  | .vintArr xs => .vintArr xs
  | .vstrArr xs => .vstrArr xs
  | .vtable ns rs nm th ss => .vtable ns rs nm th (cloneStorages ss)

/-- Modelled from the spec: value-by-value copy of a storage list. -/
def cloneStorages : List (Ty × List Val) → List (Ty × List Val)
  | [] => []
  | (σ, vs) :: ss => (σ, cloneVals vs) :: cloneStorages ss

/-- Modelled from the spec: value-by-value copy of a value list. -/
def cloneVals : List Val → List Val
  | [] => []
  | v :: vs => cloneVal v :: cloneVals vs
end

/-- Modelled from the spec: the deep copy of a whole table, duplicating the
index structures and every storage. -/
def cloneTable (t : Table) : Table :=
  ⟨t.names, t.records, t.nameMap, t.typeHashMap, cloneStorages t.storages⟩

/-- Embedding of the registered converters (`LambdaParser<T>`, parsers.h
lines 18-38) for the element types the repository registers: an `int`
converter or a string converter, each carrying its `parseValueLambda`. -/
inductive TypeParserT where
  | lamInt (conv : String → Int)
  | lamStr (conv : String → String)

/-- Embedding of `LambdaParser<T>::parseValue` (parsers.h lines 27-30). -/
def TypeParserT.applyValue : TypeParserT → String → String → Table → Table
  | .lamInt c, name, s, t => t.set name (.vint (c s))
  | .lamStr c, name, s, t => t.set name (.vstr (c s))

/-- Embedding of `LambdaParser<T>::parseArray` (parsers.h lines 31-37):
convert each token and store the result as one array-typed field. -/
def TypeParserT.applyArray : TypeParserT → String → List String → Table → Table
  | .lamInt c, name, ss, t => t.set name (.vintArr (ss.map c))
  | .lamStr c, name, ss, t => t.set name (.vstrArr (ss.map c))

/-- Embedding of `ParserSuite` (parsers.h lines 40-61): the registry from
type-name strings to converters. -/
structure ParserSuiteT where
  typeParsers : List (String × TypeParserT)

/-- Embedding of `ParserSuite::addParser` (parsers.h lines 50-53): a plain
`unordered_map::emplace`, which inserts only when the type name is absent. -/
def ParserSuiteT.addParser (ps : ParserSuiteT) (typeName : String)
    (p : TypeParserT) : ParserSuiteT :=
  ⟨aemplace ps.typeParsers typeName p⟩

/-- Embedding of `getTypeParser` (parsers.cpp lines 186-195) without the
warning printf, which the parser below records as a diagnostic. -/
def getTypeParser (typeName : String) (ps : ParserSuiteT) : Option TypeParserT :=
  alookup ps.typeParsers typeName

/-- Embedding of `isWhitespace` (parsers.cpp lines 6-10). -/
def isWhitespace (ch : Char) : Bool := ch == ' ' || ch == '\t'

/-- Embedding of `isLineBreak` (parsers.cpp lines 12-15). -/
def isLineBreak (ch : Char) : Bool :=
  ch == '\n' || ch == '\r' || ch == '\x0c' || ch == '\x0b'

/-- Embedding of `isNameChar` (parsers.cpp lines 37-40): `std::isalnum` in
the C locale together with the underscore. -/
def isNameChar (ch : Char) : Bool := ch.isAlphanum || ch == '_'

/-- Embedding of `skipWhitespace` (parsers.cpp lines 17-24), returning the
advanced cursor (the C++ bool result is never used). -/
def skipWhitespace (input : List Char) : List Char :=
  input.dropWhile isWhitespace

/-- Embedding of `skipLineBreak` (parsers.cpp lines 26-35): whether at least
one line-break character was consumed, and the advanced cursor. -/
def skipLineBreak : List Char → Bool × List Char
  | [] => (false, [])
  | c :: rest =>
    if isLineBreak c then (true, (skipLineBreak rest).2) else (false, c :: rest)

/-- Embedding of `parseWhile` (parsers.cpp lines 42-51): the matched prefix
and the advanced cursor. -/
def parseWhile (c : Char → Bool) (input : List Char) : List Char × List Char :=
  (input.takeWhile c, input.dropWhile c)

/-- Embedding of `parseName` (parsers.cpp lines 53-56). -/
def parseName (input : List Char) : List Char × List Char :=
  parseWhile isNameChar input

/-- Embedding of `skipChar` (parsers.cpp lines 58-66): `some` of the advanced
cursor when the head matches, `none` (cursor unchanged) otherwise. -/
def skipChar (input : List Char) (ch : Char) : Option (List Char) :=
  match input with
  | [] => none
  | c :: rest => if c = ch then some rest else none

/-- The left brace character, `\x7b`. -/
def lbrace : Char := '\x7b'

/-- The right brace character, `\x7d`. -/
def rbrace : Char := '\x7d'

/-- Embedding of `skipArrayStart` (parsers.cpp lines 68-71). -/
def skipArrayStart (input : List Char) : Option (List Char) := skipChar input '['

/-- Embedding of `skipArrayEnd` (parsers.cpp lines 73-76). -/
def skipArrayEnd (input : List Char) : Option (List Char) := skipChar input ']'

/-- Numeric value of a digit string, used for `std::stoi` on the size
specifier. -/
def natOfDigits (cs : List Char) : Nat :=
  cs.foldl (fun a c => a * 10 + (c.toNat - 48)) 0

/-- Embedding of `parseArraySpecifier` (parsers.cpp lines 78-87).  Note the
source behaviour: for an empty size specifier it returns 0 for a dynamic
array without consuming the closing bracket. -/
def parseArraySpecifier (input : List Char) : Int × List Char :=
  match skipArrayStart input with
  | none => (-1, input)
  | some v1 =>
    match parseWhile Char.isDigit v1 with
    | (sizeSpec, v2) =>
      if sizeSpec.isEmpty then (0, v2)
      else
        match skipArrayEnd v2 with
        | some v3 => ((natOfDigits sizeSpec : Nat), v3)
        | none => ((natOfDigits sizeSpec : Nat), v2)

/-- Embedding of `parseUntilEndOfQuotation` (parsers.cpp lines 89-92).  For a
quotation that is terminated inside the buffer this agrees with the C++; an
unterminated quotation makes the C++ loop run past the buffer (undefined
behaviour), which the embedding truncates at end of input. -/
def parseUntilEndOfQuotation (input : List Char) : List Char × List Char :=
  parseWhile (fun ch => ch ≠ '"') input

/-- Embedding of `skipTypeSeparator` (parsers.cpp lines 99-102). -/
def skipTypeSeparator (input : List Char) : Option (List Char) := skipChar input ':'

/-- Embedding of `skipAssignmentOp` (parsers.cpp lines 104-107). -/
def skipAssignmentOp (input : List Char) : Option (List Char) := skipChar input '='

/-- Embedding of `skipQuotation` (parsers.cpp lines 109-112). -/
def skipQuotation (input : List Char) : Option (List Char) := skipChar input '"'

/-- Embedding of `skipArrayElementsSeparator` (parsers.cpp lines 114-117). -/
def skipArrayElementsSeparator (input : List Char) : Option (List Char) :=
  skipChar input ','

/-- Embedding of `skipEndOfAssignment` (parsers.cpp lines 119-122). -/
def skipEndOfAssignment (input : List Char) : Option (List Char) :=
  skipChar input ';'

/-- Embedding of `skipEndOfLine` (parsers.cpp lines 124-127): line breaks
skipped, or the input already empty. -/
def skipEndOfLine (input : List Char) : Bool × List Char :=
  match skipLineBreak input with
  | (lb, rest) => (lb || rest.isEmpty, rest)

/-- Embedding of `skipStartOfTable` (parsers.cpp lines 150-153). -/
def skipStartOfTable (input : List Char) : Option (List Char) :=
  skipChar input lbrace

/-- Embedding of `skipEndOfTable` (parsers.cpp lines 155-158). -/
def skipEndOfTable (input : List Char) : Option (List Char) :=
  skipChar input rbrace

/-- Embedding of `parseKey` (parsers.cpp lines 160-174): field name, type
name (empty when no type annotation), array size (-1 when no array
specifier), and the advanced cursor. -/
def parseKey (view : List Char) : String × String × Int × List Char :=
  let v1 := skipWhitespace view
  match parseName v1 with
  | (name, v2) =>
    let v3 := skipWhitespace v2
    match skipTypeSeparator v3 with
    | some v4 =>
      let v5 := skipWhitespace v4
      match parseName v5 with
      | (typeName, v6) =>
        match parseArraySpecifier v6 with
        | (arraySize, v7) =>
          (String.mk name, String.mk typeName, arraySize, skipWhitespace v7)
    | none => (String.mk name, "", -1, v3)

/-- Embedding of `parseValue` (parsers.cpp lines 176-184): the raw quoted
token and the advanced cursor. -/
def parseValue (view : List Char) : List Char × List Char :=
  let v1 := skipWhitespace view
  let v2 := match skipQuotation v1 with | some w => w | none => v1
  match parseUntilEndOfQuotation v2 with
  | (val, v3) =>
    let v4 := match skipQuotation v3 with | some w => w | none => v3
    (val, skipWhitespace v4)

/-- Embedding of `skipCopyOperator` (parsers.cpp lines 206-218): matches the
two-character operator on a tentative cursor, committing only on success. -/
def skipCopyOperator (view : List Char) : Option (List Char) :=
  let t1 := skipWhitespace view
  match skipChar t1 '<' with
  | none => none
  | some t2 =>
    match skipChar t2 '-' with
    | none => none
    | some t3 => some (skipWhitespace t3)

/-- Embedding of `parseCopyExpression` (parsers.cpp lines 220-225): the copy
source name (empty when there is no copy operator) and the advanced cursor. -/
def parseCopyExpression (view : List Char) : String × List Char :=
  match skipCopyOperator view with
  | none => ("", view)
  | some v1 =>
    match parseName v1 with
    | (nm, v2) => (String.mk nm, v2)

/-- The diagnostics the parser emits, one constructor per printf in
parsers.cpp: the two `reportError` messages of the typed-field and table
paths, the missing array start, the missing terminator, and the
unknown-type warning of `getTypeParser`. -/
inductive Diag where
  | noAssignAfterType
  | wrongFormatForTable
  | noArrayStart
  | noEndOfAssignment
  | unknownType (typeName : String)
deriving DecidableEq

/-- Embedding of the array-collection loop of `parseView` (parsers.cpp lines
263-270): collect quoted tokens until a closing bracket, with the element
separator optional.  The fuel bounds the iteration count; the C++ loop runs
off the buffer (undefined behaviour) exactly when the fuel-out case would be
reached on a bracket-less tail. -/
def parseArrayItems : Nat → List Char → List String × List Char
  | 0, v => ([], v)
  | fuel + 1, v =>
    match skipArrayEnd v with
    | some v1 => ([], v1)
    | none =>
      match parseValue v with
      | (val, v1) =>
        let v2 := match skipArrayElementsSeparator v1 with | some w => w | none => v1
        let v3 := skipWhitespace v2
        match parseArrayItems fuel v3 with
        | (rest, v4) => (String.mk val :: rest, v4)

/-- Embedding of the terminator handling at the bottom of the `parseView`
loop (parsers.cpp lines 311-320): whitespace, then either the end-of-
assignment character or an end of line; `false` means the scope-fatal
"no end of assignment" error. -/
def parseTerminator (view : List Char) : Bool × List Char :=
  let v1 := skipWhitespace view
  match skipEndOfAssignment v1 with
  | some v2 => (true, v2)
  | none => skipEndOfLine v1

/-- Prepend already-collected diagnostics to a parser result. -/
def withDiags (ds : List Diag) (r : Table × List Char × List Diag) :
    Table × List Char × List Diag :=
  (r.1, r.2.1, ds ++ r.2.2)

/-- Embedding of `parseView` (parsers.cpp lines 233-323).  The loop of the
C++ function is rendered as fuel-indexed recursion; one unit of fuel is one
loop iteration or one nested-table recursion, so any fuel of at least twice
the view length is enough for every input the C++ terminates on.  The result
is the table of the scope, the remaining view, and the emitted diagnostics in
order.  The `cloneFrom` starting state of the C++ signature is supplied by
the caller as `res`, already cloned. -/
def parseViewAux : Nat → ParserSuiteT → Table → List Char →
    Table × List Char × List Diag
  | 0, _, res, view => (res, view, [])
  | fuel + 1, ps, res, view =>
    if view.isEmpty then (res, view, [])
    else
      let v1 := skipWhitespace view
      match skipEndOfTable v1 with
      | some v2 => (res, v2, [])
      | none =>
        match skipEndOfLine v1 with
        | (eol, v2) =>
          if eol then parseViewAux fuel ps res v2
          else
            match parseKey v1 with
            | (name, typeName, arraySize, v3) =>
              if typeName.isEmpty then
                match parseCopyExpression v3 with
                | (copyFrom, v4) =>
                  let subTable :=
                    if copyFrom.isEmpty then Table.empty
                    else
                      match Table.getVal res Ty.ttable copyFrom with
                      | some (Val.vtable ns rs nm th ss) =>
                        cloneTable ⟨ns, rs, nm, th, ss⟩
                      | _ => Table.empty
                  let v5 := if copyFrom.isEmpty then v4 else skipWhitespace v4
                  match skipAssignmentOp v5 with
                  | none => (res, v5, [Diag.wrongFormatForTable])
                  | some v6 =>
                    let v7 := skipWhitespace v6
                    let v8 := (skipEndOfLine v7).2
                    let v9 := skipWhitespace v8
                    match skipStartOfTable v9 with
                    | none => (res, v9, [Diag.wrongFormatForTable])
                    | some v10 =>
                      match parseViewAux fuel ps (cloneTable subTable) v10 with
                      | (sub, v11, dsSub) =>
                        let res2 := Table.set res name (Val.ofTable sub)
                        match parseTerminator v11 with
                        | (true, v12) =>
                          withDiags dsSub (parseViewAux fuel ps res2 v12)
                        | (false, v12) =>
                          (res2, v12, dsSub ++ [Diag.noEndOfAssignment])
              else
                match skipAssignmentOp v3 with
                | none => (res, v3, [Diag.noAssignAfterType])
                | some v4 =>
                  if 0 ≤ arraySize then
                    let v5 := skipWhitespace v4
                    match
                      (match skipArrayStart v5 with
                       | some w => (([] : List Diag), w)
                       | none => ([Diag.noArrayStart], v5)) with
                    | (dsA, v6) =>
                      match parseArrayItems fuel v6 with
                      | (items, v7) =>
                        match
                          (match getTypeParser typeName ps with
                           | some p =>
                             (TypeParserT.applyArray p name items res,
                              ([] : List Diag))
                           | none => (res, [Diag.unknownType typeName])) with
                        | (res2, dsB) =>
                          match parseTerminator (skipWhitespace v7) with
                          | (true, v8) =>
                            withDiags (dsA ++ dsB) (parseViewAux fuel ps res2 v8)
                          | (false, v8) =>
                            (res2, v8, dsA ++ dsB ++ [Diag.noEndOfAssignment])
                  else
                    match parseValue v4 with
                    | (valChars, v5) =>
                      match
                        (match getTypeParser typeName ps with
                         | some p =>
                           (TypeParserT.applyValue p name (String.mk valChars) res,
                            ([] : List Diag))
                         | none => (res, [Diag.unknownType typeName])) with
                      | (res2, dsB) =>
                        match parseTerminator v5 with
                        | (true, v6) =>
                          withDiags dsB (parseViewAux fuel ps res2 v6)
                        | (false, v6) =>
                          (res2, v6, dsB ++ [Diag.noEndOfAssignment])

/-- Embedding of `parseString` (parsers.cpp lines 325-329): run the parser on
the whole buffer with ample fuel, returning the root table and the
diagnostics. -/
def parseStringT (input : String) (ps : ParserSuiteT) : Table × List Diag :=
  match parseViewAux (input.length * 2 + 8) ps Table.empty input.toList with
  | (t, _, ds) => (t, ds)

/-- Access instrumentation for the `parseWhile` and `skipWhitespace` loops
(parsers.cpp lines 17-24 and 42-51): `while (c(input[len])) len++` reads the
character positions `0, 1, ..., r` of the view where `r` is the value
computed here, the length of the matching prefix - the final read, at
position `r` itself, is the one that stops the loop.  This equals the C++
access pattern whenever the predicate rejects the NUL terminator sitting one
position past a `std::string` buffer. -/
def parseWhileHi (p : Char → Bool) : List Char → Nat
  | [] => 0
  | c :: cs => if p c then parseWhileHi p cs + 1 else 0

/-- Highest position read by `skipWhitespace` (parsers.cpp lines 17-24). -/
def skipWhitespaceHi (s : List Char) : Nat := parseWhileHi isWhitespace s

/-- Highest position read by `skipLineBreak` (parsers.cpp lines 26-35): it
reads position 0 of ever shorter suffixes, i.e. positions `0 .. k` of the
original view where `k` is the number of leading line breaks. -/
def skipLineBreakHi (s : List Char) : Nat := parseWhileHi isLineBreak s

/-- Highest position read by `skipChar` (parsers.cpp lines 58-66): always
exactly position 0, even on an empty view. -/
def skipCharHi (_s : List Char) : Nat := 0

/-- The abstraction of a table as its field list: for each record, the field
name, the element type of the storage it points into, and the value in its
slot. -/
def tableFields (t : Table) : List (String × Ty × Val) :=
  t.records.map fun r =>
    (nthD t.names r.nameId "", (stor t r.storageId).1,
     nthD (stor t r.storageId).2 r.idx (.vint 0))

/-- The fields of a given stored type, in insertion order: the reference
behaviour `forEach<T>` is specified against. -/
def fieldsOfTy (t : Table) (τ : Ty) : List (String × Val) :=
  (tableFields t).filterMap fun f =>
    if f.2.1 = τ then some (f.1, f.2.2) else none

/-- The element type of the storage holding the field `n`, when `n` is
present. -/
def fieldTyAt (t : Table) (n : String) : Option Ty :=
  (alookup t.nameMap n).map fun i =>
    (stor t (nthD t.records i noRecord).storageId).1

/-- A `set` call that does not re-bind an existing name to a different value
type: the caller contract under which the spec states its properties. -/
def setTyOk (t : Table) (n : String) (v : Val) : Prop :=
  fieldTyAt t n = none ∨ fieldTyAt t n = some (tyOf v)

/-- Well-formedness of a table: names and records in bijection through
`nameMap`, every record pointing at an existing slot of an existing storage,
and `typeHashMap` a bijection between element types and storages whose
values all carry the element type of their storage. -/
def TableWF (t : Table) : Prop :=
  t.names.length = t.records.length ∧
  (∀ i, i < t.records.length → (nthD t.records i noRecord).nameId = i) ∧
  (∀ i, i < t.records.length →
    (nthD t.records i noRecord).storageId < t.storages.length ∧
    (nthD t.records i noRecord).idx <
      (stor t (nthD t.records i noRecord).storageId).2.length) ∧
  (∀ i, i < t.names.length → alookup t.nameMap (nthD t.names i "") = some i) ∧
  (∀ p ∈ t.nameMap, p.2 < t.names.length ∧ nthD t.names p.2 "" = p.1) ∧
  (∀ q ∈ t.typeHashMap, q.2 < t.storages.length ∧ (stor t q.2).1 = q.1) ∧
  (∀ j, j < t.storages.length → alookup t.typeHashMap (stor t j).1 = some j) ∧
  (∀ j, j < t.storages.length → ∀ i, i < (stor t j).2.length →
    tyOf (nthD (stor t j).2 i (.vint 0)) = (stor t j).1)

/-- Fold a sequence of `set` operations over a table. -/
def applyOps (t : Table) : List (String × Val) → Table
  | [] => t
  | (n, v) :: ops => applyOps (t.set n v) ops

/-- The whole operation sequence respects the no-type-change contract. -/
def opsOk (t : Table) : List (String × Val) → Prop
  | [] => True
  | (n, v) :: ops => setTyOk t n v ∧ opsOk (t.set n v) ops

/-- Extract a table-valued field, defaulting to the empty table. -/
def getTableField (t : Table) (n : String) : Table :=
  match t.getVal .ttable n with
  | some (.vtable ns rs nm th ss) => ⟨ns, rs, nm, th, ss⟩
  | _ => Table.empty

/-- The `std::stoi`-based integer converter registered by the caller in the
repository (samples/visitall.cpp): optional sign, then leading digits. -/
def stoiT (s : String) : Int :=
  match s.toList with
  | '-' :: cs => - (natOfDigits (cs.takeWhile Char.isDigit) : Int)
  | '+' :: cs => (natOfDigits (cs.takeWhile Char.isDigit) : Nat)
  | cs => (natOfDigits (cs.takeWhile Char.isDigit) : Nat)

/-- A parser suite with the `int` converter registered. -/
def psInt : ParserSuiteT := ParserSuiteT.addParser ⟨[]⟩ "int" (.lamInt stoiT)

/-- The claim C2 document: a dynamic-size integer array field. -/
def docArrayDyn : String := "xs : int[] = \"1\", \"2\", \"3\""

/-- The same document with an explicit array size and bracketed value list,
the form the source code actually accepts. -/
def docArraySized : String := "xs : int[3] = [\"1\", \"2\", \"3\"]"

/-- The section 6 prototype-copy example restricted to its base/derived
part, as quoted by claim C3. -/
def docProto : String :=
  "base = \x7b\n    x : int = \"1\"\n    y : int = \"2\"\n\x7d\nderived <- base = \x7b\n    y : int = \"20\"\n    z : int = \"30\"\n\x7d"

instance decSetTyOk (t : Table) (n : String) (v : Val) :
    Decidable (setTyOk t n v) := by
  unfold setTyOk
  infer_instance

instance decOpsOk (t : Table) : (ops : List (String × Val)) →
    Decidable (opsOk t ops)
  | [] => .isTrue trivial
  | (n, v) :: rest =>
    @instDecidableAnd _ _ (decSetTyOk t n v) (decOpsOk (t.set n v) rest)

instance decTableWF (t : Table) : Decidable (TableWF t) := by
  unfold TableWF
  infer_instance

theorem nthD_append_left {α : Type} (l l' : List α) (i : Nat) (d : α)
    (h : i < l.length) : nthD (l ++ l') i d = nthD l i d := by
  induction l generalizing i with
  | nil => simp at h
  | cons a t ih =>
    cases i with
    | zero => rfl
    | succ i => exact ih i (by simpa using h)

theorem nthD_append_self {α : Type} (l : List α) (x : α) (d : α) :
    nthD (l ++ [x]) l.length d = x := by
  induction l with
  | nil => rfl
  | cons a t ih => exact ih

theorem nthD_ge {α : Type} (l : List α) (i : Nat) (d : α)
    (h : l.length ≤ i) : nthD l i d = d := by
  induction l generalizing i with
  | nil => cases i <;> rfl
  | cons a t ih =>
    cases i with
    | zero => simp at h
    | succ i => exact ih i (by simpa using h)

theorem nthD_set_self {α : Type} (l : List α) (i : Nat) (x : α) (d : α)
    (h : i < l.length) : nthD (l.set i x) i d = x := by
  induction l generalizing i with
  | nil => simp at h
  | cons a t ih =>
    cases i with
    | zero => rfl
    | succ i => exact ih i (by simpa using h)

theorem nthD_set_ne {α : Type} (l : List α) (i j : Nat) (x : α) (d : α)
    (h : j ≠ i) : nthD (l.set i x) j d = nthD l j d := by
  induction l generalizing i j with
  | nil => rfl
  | cons a t ih =>
    cases i with
    | zero => cases j with
      | zero => exact absurd rfl h
      | succ j => rfl
    | succ i => cases j with
      | zero => rfl
      | succ j => exact ih i j (fun e => h (by rw [e]))

theorem set_append_length {α : Type} (l : List α) (a b : α) :
    (l ++ [a]).set l.length b = l ++ [b] := by
  induction l with
  | nil => rfl
  | cons c t ih => simp [List.set, ih]

theorem alookup_append_some {α β : Type} [DecidableEq α] {m m' : List (α × β)}
    {k : α} {b : β} (h : alookup m k = some b) :
    alookup (m ++ m') k = some b := by
  induction m with
  | nil => simp [alookup] at h
  | cons p t ih =>
    obtain ⟨a, c⟩ := p
    simp only [alookup, List.cons_append] at h ⊢
    by_cases hk : k = a
    · simpa [hk] using h
    · rw [if_neg hk] at h ⊢
      exact ih h

theorem alookup_append_none {α β : Type} [DecidableEq α] {m : List (α × β)}
    (m' : List (α × β)) {k : α} (h : alookup m k = none) :
    alookup (m ++ m') k = alookup m' k := by
  induction m with
  | nil => rfl
  | cons p t ih =>
    obtain ⟨a, c⟩ := p
    simp only [alookup, List.cons_append] at h ⊢
    by_cases hk : k = a
    · simp [hk] at h
    · rw [if_neg hk] at h ⊢
      exact ih h

theorem alookup_mem {α β : Type} [DecidableEq α] {m : List (α × β)}
    {k : α} {b : β} (h : alookup m k = some b) : (k, b) ∈ m := by
  induction m with
  | nil => simp [alookup] at h
  | cons p t ih =>
    obtain ⟨a, c⟩ := p
    simp only [alookup] at h
    by_cases hk : k = a
    · rw [if_pos hk] at h
      simp only [Option.some.injEq] at h
      subst hk
      subst h
      exact List.mem_cons_self _ _
    · rw [if_neg hk] at h
      exact List.mem_cons_of_mem _ (ih h)

theorem alookup_singleton {α β : Type} [DecidableEq α] (k : α) (b : β) :
    alookup [(k, b)] k = some b := by
  simp [alookup]

theorem storages_length_le (t : Table)
    (hthl : ∀ j, j < t.storages.length →
      alookup t.typeHashMap (stor t j).1 = some j) :
    t.storages.length ≤ 5 := by
  have hinj : Function.Injective
      (fun j : Fin t.storages.length => (stor t j.1).1) := by
    intro j j' he
    have h1 := hthl j.1 j.2
    have h2 := hthl j'.1 j'.2
    simp only at he
    rw [he, h2] at h1
    exact Fin.ext (by simpa using h1.symm)
  have hc := Fintype.card_le_of_injective _ hinj
  have hcard : Fintype.card Ty = 5 := rfl
  simpa [Fintype.card_fin, hcard] using hc

theorem sentinel_not_lt (t : Table) (h : t.storages.length ≤ 5) :
    ¬ sentinelIdx < t.storages.length := by
  have h5 : (5 : Nat) < sentinelIdx := by norm_num [sentinelIdx]
  omega

theorem set_eq_overwrite (t : Table) (n : String) (v : Val) (i : Nat)
    (halk : alookup t.nameMap n = some i)
    (hsid : (nthD t.records i noRecord).storageId < t.storages.length) :
    t.set n v = { t with
      storages :=
        t.storages.set (nthD t.records i noRecord).storageId
          ((stor t (nthD t.records i noRecord).storageId).1,
           (stor t (nthD t.records i noRecord).storageId).2.set
             (nthD t.records i noRecord).idx v) } := by
  simp only [Table.set, Table.findIndex, halk]
  rw [if_pos hsid]

theorem set_eq_fresh_existing (t : Table) (n : String) (v : Val) (sid : Nat)
    (halk : alookup t.nameMap n = none)
    (hns : ¬ sentinelIdx < t.storages.length)
    (hth : alookup t.typeHashMap (tyOf v) = some sid) :
    t.set n v = { t with
      names := t.names ++ [n],
      records := t.records ++ [⟨t.names.length, sid, (stor t sid).2.length⟩],
      nameMap := t.nameMap ++ [(n, t.records.length)],
      storages := t.storages.set sid ((stor t sid).1, (stor t sid).2 ++ [v]) } := by
  simp only [Table.set, Table.findIndex, halk, Table.getOrCreateStorageForType, hth,
    noRecord]
  rw [if_neg hns]
  simp only [aemplace, halk]

theorem set_eq_fresh_new (t : Table) (n : String) (v : Val)
    (halk : alookup t.nameMap n = none)
    (hns : ¬ sentinelIdx < t.storages.length)
    (hth : alookup t.typeHashMap (tyOf v) = none) :
    t.set n v = { t with
      names := t.names ++ [n],
      records := t.records ++ [⟨t.names.length, t.storages.length, 0⟩],
      nameMap := t.nameMap ++ [(n, t.records.length)],
      typeHashMap := t.typeHashMap ++ [(tyOf v, t.storages.length)],
      storages := t.storages ++ [(tyOf v, [v])] } := by
  simp only [Table.set, Table.findIndex, halk, Table.getOrCreateStorageForType, hth,
    noRecord]
  rw [if_neg hns]
  simp only [aemplace, halk, stor, nthD_append_self, set_append_length,
    List.nil_append, List.length_nil]

theorem tableWF_storages_congr (t : Table) (ss : List (Ty × List Val))
    (hL : ss.length = t.storages.length)
    (hT : ∀ j, j < t.storages.length → (nthD ss j (.tint, [])).1 = (stor t j).1)
    (hVL : ∀ j, j < t.storages.length →
      (nthD ss j (.tint, [])).2.length = (stor t j).2.length)
    (hVT : ∀ j, j < t.storages.length →
      ∀ k, k < (nthD ss j (.tint, [])).2.length →
      tyOf (nthD (nthD ss j (.tint, [])).2 k (.vint 0)) = (nthD ss j (.tint, [])).1)
    (hwf : TableWF t) : TableWF { t with storages := ss } := by
  obtain ⟨hlen, hnid, hrec, hnml, hnmv, hthv, hthl, hstw⟩ := hwf
  refine ⟨hlen, hnid, ?_, hnml, hnmv, ?_, ?_, ?_⟩
  · intro i hi
    have h1 := hrec i hi
    refine ⟨?_, ?_⟩
    · show _ < ss.length
      rw [hL]
      exact h1.1
    · show (nthD t.records i noRecord).idx <
        (nthD ss (nthD t.records i noRecord).storageId (.tint, [])).2.length
      rw [hVL _ h1.1]
      exact h1.2
  · intro q hq
    have h1 := hthv q hq
    refine ⟨?_, ?_⟩
    · show _ < ss.length
      rw [hL]
      exact h1.1
    · show (nthD ss q.2 (.tint, [])).1 = q.1
      rw [hT _ h1.1]
      exact h1.2
  · intro j hj
    have hj' : j < t.storages.length := by
      have : j < ss.length := hj
      omega
    show alookup t.typeHashMap (nthD ss j (.tint, [])).1 = some j
    rw [hT _ hj']
    exact hthl j hj'
  · intro j hj k hk
    have hj' : j < t.storages.length := by
      have : j < ss.length := hj
      omega
    have hk' : k < (nthD ss j (.tint, [])).2.length := hk
    exact hVT j hj' k hk'

theorem tableWF_set (t : Table) (n : String) (v : Val)
    (hwf : TableWF t) (hok : setTyOk t n v) : TableWF (t.set n v) := by
  obtain ⟨hlen, hnid, hrec, hnml, hnmv, hthv, hthl, hstw⟩ := hwf
  have hsmall := sentinel_not_lt t (storages_length_le t hthl)
  cases halk : alookup t.nameMap n with
  | some i =>
    have hmem := alookup_mem halk
    have hiN : i < t.names.length := (hnmv _ hmem).1
    have hiR : i < t.records.length := by rw [← hlen]; exact hiN
    have hsid : (nthD t.records i noRecord).storageId < t.storages.length :=
      (hrec i hiR).1
    have hidx : (nthD t.records i noRecord).idx <
        (stor t (nthD t.records i noRecord).storageId).2.length := (hrec i hiR).2
    have hty : (stor t (nthD t.records i noRecord).storageId).1 = tyOf v := by
      rcases hok with h | h
      · rw [fieldTyAt, halk] at h
        simp at h
      · rw [fieldTyAt, halk] at h
        simpa using h
    rw [set_eq_overwrite t n v i halk hsid]
    refine tableWF_storages_congr t _ ?_ ?_ ?_ ?_
      ⟨hlen, hnid, hrec, hnml, hnmv, hthv, hthl, hstw⟩
    · exact List.length_set _ _ _
    · intro j hj
      by_cases hjs : j = (nthD t.records i noRecord).storageId
      · subst hjs
        rw [nthD_set_self _ _ _ _ hsid]
      · rw [nthD_set_ne _ _ _ _ _ hjs]
        rfl
    · intro j hj
      by_cases hjs : j = (nthD t.records i noRecord).storageId
      · subst hjs
        rw [nthD_set_self _ _ _ _ hsid]
        exact List.length_set _ _ _
      · rw [nthD_set_ne _ _ _ _ _ hjs]
        rfl
    · intro j hj k hk
      by_cases hjs : j = (nthD t.records i noRecord).storageId
      · subst hjs
        rw [nthD_set_self _ _ _ _ hsid] at hk ⊢
        have hk2 : k <
            ((stor t (nthD t.records i noRecord).storageId).2.set
              (nthD t.records i noRecord).idx v).length := hk
        rw [List.length_set] at hk2
        show tyOf (nthD ((stor t (nthD t.records i noRecord).storageId).2.set
            (nthD t.records i noRecord).idx v) k (.vint 0)) =
          (stor t (nthD t.records i noRecord).storageId).1
        by_cases hki : k = (nthD t.records i noRecord).idx
        · rw [hki, nthD_set_self _ _ _ _ hidx]
          exact hty.symm
        · rw [nthD_set_ne _ _ _ _ _ hki]
          exact hstw _ hsid k hk2
      · rw [nthD_set_ne _ _ _ _ _ hjs] at hk ⊢
        exact hstw j hj k hk
  | none =>
    cases hth : alookup t.typeHashMap (tyOf v) with
    | some sid =>
      have hmem2 := alookup_mem hth
      have hsidlt : sid < t.storages.length := (hthv _ hmem2).1
      have hsidty : (stor t sid).1 = tyOf v := (hthv _ hmem2).2
      rw [set_eq_fresh_existing t n v sid halk hsmall hth]
      refine ⟨?_, ?_, ?_, ?_, ?_, ?_, ?_, ?_⟩
      · show (t.names ++ [n]).length = (t.records ++ [_]).length
        simp [hlen]
      · intro i hi
        show (nthD (t.records ++ [⟨t.names.length, sid, (stor t sid).2.length⟩])
          i noRecord).nameId = i
        have hi' : i < t.records.length + 1 := by simpa using hi
        by_cases hio : i < t.records.length
        · rw [nthD_append_left _ _ _ _ hio]
          exact hnid i hio
        · have hieq : i = t.records.length := by omega
          subst hieq
          rw [nthD_append_self]
          exact hlen
      · intro i hi
        have hi' : i < t.records.length + 1 := by simpa using hi
        show (nthD (t.records ++ [⟨t.names.length, sid, (stor t sid).2.length⟩])
            i noRecord).storageId <
            (t.storages.set sid ((stor t sid).1, (stor t sid).2 ++ [v])).length ∧ _
        rw [List.length_set]
        by_cases hio : i < t.records.length
        · rw [nthD_append_left _ _ _ _ hio]
          refine ⟨(hrec i hio).1, ?_⟩
          show (nthD t.records i noRecord).idx <
            (nthD (t.storages.set sid ((stor t sid).1, (stor t sid).2 ++ [v]))
              (nthD t.records i noRecord).storageId (.tint, [])).2.length
          by_cases hjs : (nthD t.records i noRecord).storageId = sid
          · rw [hjs, nthD_set_self _ _ _ _ hsidlt]
            have := (hrec i hio).2
            rw [hjs] at this
            simp only [List.length_append, List.length_cons, List.length_nil]
            omega
          · rw [nthD_set_ne _ _ _ _ _ hjs]
            exact (hrec i hio).2
        · have hieq : i = t.records.length := by omega
          subst hieq
          rw [nthD_append_self]
          refine ⟨hsidlt, ?_⟩
          show (stor t sid).2.length <
            (nthD (t.storages.set sid ((stor t sid).1, (stor t sid).2 ++ [v]))
              sid (.tint, [])).2.length
          rw [nthD_set_self _ _ _ _ hsidlt]
          simp
      · intro i hi
        have hi' : i < t.names.length + 1 := by simpa using hi
        by_cases hio : i < t.names.length
        · rw [nthD_append_left _ _ _ _ hio]
          exact alookup_append_some (hnml i hio)
        · have hieq : i = t.names.length := by omega
          subst hieq
          rw [nthD_append_self, alookup_append_none _ halk, alookup_singleton]
          rw [hlen]
      · intro p hp
        rw [List.mem_append] at hp
        rcases hp with hp | hp
        · have h1 := hnmv p hp
          constructor
          · show p.2 < (t.names ++ [n]).length
            simp only [List.length_append, List.length_cons, List.length_nil]
            omega
          · rw [nthD_append_left _ _ _ _ h1.1]
            exact h1.2
        · rw [List.mem_singleton] at hp
          subst hp
          constructor
          · show t.records.length < (t.names ++ [n]).length
            simp [hlen]
          · show nthD (t.names ++ [n]) t.records.length "" = n
            rw [← hlen, nthD_append_self]
      · intro q hq
        have h1 := hthv q hq
        constructor
        · show q.2 < (t.storages.set sid ((stor t sid).1, (stor t sid).2 ++ [v])).length
          rw [List.length_set]
          exact h1.1
        · show (nthD (t.storages.set sid ((stor t sid).1, (stor t sid).2 ++ [v]))
            q.2 (.tint, [])).1 = q.1
          by_cases hjs : q.2 = sid
          · rw [hjs, nthD_set_self _ _ _ _ hsidlt]
            rw [hjs] at h1
            exact h1.2
          · rw [nthD_set_ne _ _ _ _ _ hjs]
            exact h1.2
      · intro j hj
        have hj' : j < t.storages.length := by
          have : j < (t.storages.set sid ((stor t sid).1, (stor t sid).2 ++ [v])).length := hj
          rw [List.length_set] at this
          exact this
        show alookup t.typeHashMap
          (nthD (t.storages.set sid ((stor t sid).1, (stor t sid).2 ++ [v]))
            j (.tint, [])).1 = some j
        by_cases hjs : j = sid
        · rw [hjs, nthD_set_self _ _ _ _ hsidlt]
          have := hthl sid hsidlt
          exact this
        · rw [nthD_set_ne _ _ _ _ _ hjs]
          exact hthl j hj'
      · intro j hj k hk
        have hj' : j < t.storages.length := by
          have h2 : j < (t.storages.set sid
              ((stor t sid).1, (stor t sid).2 ++ [v])).length := hj
          rw [List.length_set] at h2
          exact h2
        by_cases hjs : j = sid
        · rw [hjs] at hk ⊢
          have hk2 : k < (stor t sid).2.length + 1 := by
            have h3 : k < (nthD (t.storages.set sid
                ((stor t sid).1, (stor t sid).2 ++ [v])) sid (Ty.tint, [])).2.length := hk
            rw [nthD_set_self _ _ _ _ hsidlt] at h3
            simpa using h3
          show tyOf (nthD (nthD (t.storages.set sid
              ((stor t sid).1, (stor t sid).2 ++ [v])) sid (Ty.tint, [])).2 k
              (.vint 0)) =
            (nthD (t.storages.set sid ((stor t sid).1, (stor t sid).2 ++ [v])) sid
              (Ty.tint, [])).1
          rw [nthD_set_self _ _ _ _ hsidlt]
          show tyOf (nthD ((stor t sid).2 ++ [v]) k (.vint 0)) = (stor t sid).1
          by_cases hko : k < (stor t sid).2.length
          · rw [nthD_append_left _ _ _ _ hko]
            exact hstw sid hsidlt k hko
          · have hkeq : k = (stor t sid).2.length := by omega
            rw [hkeq, nthD_append_self]
            exact hsidty.symm
        · have hk2 : k < (stor t j).2.length := by
            have h3 : k < (nthD (t.storages.set sid
                ((stor t sid).1, (stor t sid).2 ++ [v])) j (Ty.tint, [])).2.length := hk
            rw [nthD_set_ne _ _ _ _ _ hjs] at h3
            exact h3
          show tyOf (nthD (nthD (t.storages.set sid
              ((stor t sid).1, (stor t sid).2 ++ [v])) j (Ty.tint, [])).2 k
              (.vint 0)) =
            (nthD (t.storages.set sid ((stor t sid).1, (stor t sid).2 ++ [v])) j
              (Ty.tint, [])).1
          rw [nthD_set_ne _ _ _ _ _ hjs]
          exact hstw j hj' k hk2
    | none =>
      rw [set_eq_fresh_new t n v halk hsmall hth]
      refine ⟨?_, ?_, ?_, ?_, ?_, ?_, ?_, ?_⟩
      · show (t.names ++ [n]).length = (t.records ++ [_]).length
        simp [hlen]
      · intro i hi
        have hi' : i < t.records.length + 1 := by simpa using hi
        by_cases hio : i < t.records.length
        · rw [nthD_append_left _ _ _ _ hio]
          exact hnid i hio
        · have hieq : i = t.records.length := by omega
          subst hieq
          rw [nthD_append_self]
          exact hlen
      · intro i hi
        have hi' : i < t.records.length + 1 := by simpa using hi
        by_cases hio : i < t.records.length
        · rw [nthD_append_left _ _ _ _ hio]
          refine ⟨?_, ?_⟩
          · show _ < (t.storages ++ [(tyOf v, [v])]).length
            simp only [List.length_append, List.length_cons, List.length_nil]
            have := (hrec i hio).1
            omega
          · show (nthD t.records i noRecord).idx <
              (nthD (t.storages ++ [(tyOf v, [v])])
                (nthD t.records i noRecord).storageId (.tint, [])).2.length
            rw [nthD_append_left _ _ _ _ (hrec i hio).1]
            exact (hrec i hio).2
        · have hieq : i = t.records.length := by omega
          subst hieq
          rw [nthD_append_self]
          refine ⟨?_, ?_⟩
          · show t.storages.length < (t.storages ++ [(tyOf v, [v])]).length
            simp
          · show (0 : Nat) <
              (nthD (t.storages ++ [(tyOf v, [v])]) t.storages.length (.tint, [])).2.length
            rw [nthD_append_self]
            simp
      · intro i hi
        have hi' : i < t.names.length + 1 := by simpa using hi
        by_cases hio : i < t.names.length
        · rw [nthD_append_left _ _ _ _ hio]
          exact alookup_append_some (hnml i hio)
        · have hieq : i = t.names.length := by omega
          subst hieq
          rw [nthD_append_self, alookup_append_none _ halk, alookup_singleton]
          rw [hlen]
      · intro p hp
        rw [List.mem_append] at hp
        rcases hp with hp | hp
        · have h1 := hnmv p hp
          constructor
          · show p.2 < (t.names ++ [n]).length
            simp only [List.length_append, List.length_cons, List.length_nil]
            omega
          · rw [nthD_append_left _ _ _ _ h1.1]
            exact h1.2
        · rw [List.mem_singleton] at hp
          subst hp
          constructor
          · show t.records.length < (t.names ++ [n]).length
            simp [hlen]
          · show nthD (t.names ++ [n]) t.records.length "" = n
            rw [← hlen, nthD_append_self]
      · intro q hq
        rw [List.mem_append] at hq
        rcases hq with hq | hq
        · have h1 := hthv q hq
          constructor
          · show q.2 < (t.storages ++ [(tyOf v, [v])]).length
            simp only [List.length_append, List.length_cons, List.length_nil]
            omega
          · show (nthD (t.storages ++ [(tyOf v, [v])]) q.2 (.tint, [])).1 = q.1
            rw [nthD_append_left _ _ _ _ h1.1]
            exact h1.2
        · rw [List.mem_singleton] at hq
          subst hq
          constructor
          · show t.storages.length < (t.storages ++ [(tyOf v, [v])]).length
            simp
          · show (nthD (t.storages ++ [(tyOf v, [v])]) t.storages.length (.tint, [])).1
              = tyOf v
            rw [nthD_append_self]
      · intro j hj
        have hj' : j < t.storages.length + 1 := by simpa using hj
        by_cases hjo : j < t.storages.length
        · show alookup (t.typeHashMap ++ [(tyOf v, t.storages.length)])
            (nthD (t.storages ++ [(tyOf v, [v])]) j (.tint, [])).1 = some j
          rw [nthD_append_left _ _ _ _ hjo]
          exact alookup_append_some (hthl j hjo)
        · have hjeq : j = t.storages.length := by omega
          subst hjeq
          show alookup (t.typeHashMap ++ [(tyOf v, t.storages.length)])
            (nthD (t.storages ++ [(tyOf v, [v])]) t.storages.length (.tint, [])).1
            = some t.storages.length
          rw [nthD_append_self, alookup_append_none _ hth, alookup_singleton]
      · intro j hj k hk
        have hj' : j < t.storages.length + 1 := by simpa using hj
        show tyOf (nthD (nthD (t.storages ++ [(tyOf v, [v])]) j (Ty.tint, [])).2 k
            (.vint 0)) =
          (nthD (t.storages ++ [(tyOf v, [v])]) j (Ty.tint, [])).1
        by_cases hjo : j < t.storages.length
        · rw [nthD_append_left _ _ _ _ hjo]
          have hk2 : k < (stor t j).2.length := by
            have h3 : k < (nthD (t.storages ++ [(tyOf v, [v])]) j
                (Ty.tint, [])).2.length := hk
            rw [nthD_append_left _ _ _ _ hjo] at h3
            exact h3
          exact hstw j hjo k hk2
        · have hjeq : j = t.storages.length := by omega
          rw [hjeq, nthD_append_self]
          have hk2 : k < ([v] : List Val).length := by
            have h3 : k < (nthD (t.storages ++ [(tyOf v, [v])]) j
                (Ty.tint, [])).2.length := hk
            rw [hjeq, nthD_append_self] at h3
            exact h3
          have hk1 : k = 0 := by
            simp only [List.length_cons, List.length_nil] at hk2
            omega
          rw [hk1]
          rfl

theorem tableWF_empty : TableWF Table.empty := by
  refine ⟨rfl, ?_, ?_, ?_, ?_, ?_, ?_, ?_⟩ <;>
    intros <;> simp_all [Table.empty, alookup]

theorem tableWF_applyOps (t : Table) (ops : List (String × Val))
    (hwf : TableWF t) (hok : opsOk t ops) : TableWF (applyOps t ops) := by
  induction ops generalizing t with
  | nil => simpa [applyOps] using hwf
  | cons p rest ih =>
    obtain ⟨n, v⟩ := p
    obtain ⟨h1, h2⟩ := hok
    exact ih (t.set n v) (tableWF_set t n v hwf h1) h2

theorem getOr_set_eq (t : Table) (n : String) (v d : Val)
    (hwf : TableWF t) (hok : setTyOk t n v) :
    (t.set n v).getOr (tyOf v) n d = v := by
  obtain ⟨hlen, hnid, hrec, hnml, hnmv, hthv, hthl, hstw⟩ := hwf
  have hsmall := sentinel_not_lt t (storages_length_le t hthl)
  cases halk : alookup t.nameMap n with
  | some i =>
    have hmem := alookup_mem halk
    have hiN : i < t.names.length := (hnmv _ hmem).1
    have hiR : i < t.records.length := by rw [← hlen]; exact hiN
    have hsid : (nthD t.records i noRecord).storageId < t.storages.length :=
      (hrec i hiR).1
    have hidx : (nthD t.records i noRecord).idx <
        (stor t (nthD t.records i noRecord).storageId).2.length := (hrec i hiR).2
    have hty : (stor t (nthD t.records i noRecord).storageId).1 = tyOf v := by
      rcases hok with h | h
      · rw [fieldTyAt, halk] at h
        simp at h
      · rw [fieldTyAt, halk] at h
        simpa using h
    have hth2 : alookup t.typeHashMap (tyOf v) =
        some (nthD t.records i noRecord).storageId := by
      have h1 := hthl _ hsid
      rw [hty] at h1
      exact h1
    rw [set_eq_overwrite t n v i halk hsid]
    simp only [Table.getOr, Table.findIndex, Table.getStorageByType, halk, hth2,
      List.length_set]
    rw [if_pos ⟨hsid, by trivial⟩]
    show nthD (nthD (t.storages.set (nthD t.records i noRecord).storageId
        ((stor t (nthD t.records i noRecord).storageId).1,
         (stor t (nthD t.records i noRecord).storageId).2.set
           (nthD t.records i noRecord).idx v))
        (nthD t.records i noRecord).storageId (Ty.tint, [])).2
      (nthD t.records i noRecord).idx d = v
    rw [nthD_set_self _ _ _ _ hsid]
    show nthD ((stor t (nthD t.records i noRecord).storageId).2.set
        (nthD t.records i noRecord).idx v) (nthD t.records i noRecord).idx d = v
    rw [nthD_set_self _ _ _ _ hidx]
  | none =>
    cases hth : alookup t.typeHashMap (tyOf v) with
    | some sid =>
      have hmem2 := alookup_mem hth
      have hsidlt : sid < t.storages.length := (hthv _ hmem2).1
      rw [set_eq_fresh_existing t n v sid halk hsmall hth]
      simp only [Table.getOr, Table.findIndex, Table.getStorageByType,
        alookup_append_none _ halk, alookup_singleton, nthD_append_self, hth,
        List.length_set]
      rw [if_pos ⟨hsidlt, by trivial⟩]
      show nthD (nthD (t.storages.set sid
          ((stor t sid).1, (stor t sid).2 ++ [v])) sid (Ty.tint, [])).2
        (stor t sid).2.length d = v
      rw [nthD_set_self _ _ _ _ hsidlt]
      show nthD ((stor t sid).2 ++ [v]) (stor t sid).2.length d = v
      rw [nthD_append_self]
    | none =>
      rw [set_eq_fresh_new t n v halk hsmall hth]
      simp only [Table.getOr, Table.findIndex, Table.getStorageByType,
        alookup_append_none _ halk, alookup_append_none _ hth, alookup_singleton,
        nthD_append_self, List.length_append, List.length_cons, List.length_nil]
      rw [if_pos ⟨by omega, by trivial⟩]
      show nthD (nthD (t.storages ++ [(tyOf v, [v])]) t.storages.length
          (Ty.tint, [])).2 0 d = v
      rw [nthD_append_self]
      rfl

theorem nthD_eq_getElem {α : Type} (l : List α) (i : Nat) (d : α)
    (h : i < l.length) : nthD l i d = l[i] := by
  induction l generalizing i with
  | nil => simp at h
  | cons a t ih =>
    cases i with
    | zero => rfl
    | succ i => exact ih i (by simpa using h)

theorem getAll_eq_fieldsOfTy_aux (t : Table) (τ : Ty) (hwf : TableWF t) :
    t.getAll τ = fieldsOfTy t τ := by
  obtain ⟨hlen, hnid, hrec, hnml, hnmv, hthv, hthl, hstw⟩ := hwf
  have hmemrec : ∀ r ∈ t.records,
      ∃ i, i < t.records.length ∧ nthD t.records i noRecord = r := by
    intro r hr
    obtain ⟨i, hi, hieq⟩ := List.mem_iff_getElem.mp hr
    exact ⟨i, hi, by rw [nthD_eq_getElem _ _ _ hi]; exact hieq⟩
  cases hth : alookup t.typeHashMap τ with
  | none =>
    simp only [Table.getAll, hth]
    rw [fieldsOfTy, tableFields, List.filterMap_map]
    symm
    rw [List.filterMap_eq_nil_iff]
    intro r hr
    obtain ⟨i, hi, hieq⟩ := hmemrec r hr
    have hsid : r.storageId < t.storages.length := by
      rw [← hieq]
      exact (hrec i hi).1
    have hne : (stor t r.storageId).1 ≠ τ := by
      intro he
      have h1 := hthl r.storageId hsid
      rw [he, hth] at h1
      exact Option.noConfusion h1
    show (if (stor t r.storageId).1 = τ then
        some (nthD t.names r.nameId "",
          nthD (stor t r.storageId).2 r.idx (.vint 0))
      else none) = none
    rw [if_neg hne]
  | some j =>
    have hjty : (stor t j).1 = τ := (hthv _ (alookup_mem hth)).2
    simp only [Table.getAll, hth]
    rw [fieldsOfTy, tableFields, List.filterMap_map]
    apply List.filterMap_congr
    intro r hr
    obtain ⟨i, hi, hieq⟩ := hmemrec r hr
    have hsid : r.storageId < t.storages.length := by
      rw [← hieq]
      exact (hrec i hi).1
    show (if r.storageId = j then
        some (nthD t.names r.nameId "", nthD (stor t j).2 r.idx (.vint 0))
      else none) =
      (if (stor t r.storageId).1 = τ then
        some (nthD t.names r.nameId "",
          nthD (stor t r.storageId).2 r.idx (.vint 0))
      else none)
    by_cases hc : r.storageId = j
    · rw [hc, if_pos rfl, if_pos hjty]
    · have hne : (stor t r.storageId).1 ≠ τ := by
        intro he
        have h1 := hthl r.storageId hsid
        rw [he, hth] at h1
        exact hc (Option.some.inj h1).symm
      rw [if_neg hc, if_neg hne]

/-- C1: the claim says a `set` for an existing name with a different value
type fails with a TypeConflict error and leaves the stored value unchanged.
The code has no error path at all: it takes the overwrite branch through the
unchecked `TypedStorage<T>` cast and assigns in place.  Evaluating the
embedding at the failing input: after storing the int 1 under n and then
calling `set` with the string value a for the same name, a `getOr` for the
int field returns the reinterpreted string value, and the int pool slot now
holds the string - the legacy cast-based overwrite did occur and no error
was produced. -/
theorem c1_set_type_conflict_overwrites :
    ((Table.empty.set "n" (Val.vint 1)).set "n" (Val.vstr "a")).getOr Ty.tint "n"
      (Val.vint 0) = Val.vstr "a" ∧
    ((Table.empty.set "n" (Val.vint 1)).set "n" (Val.vstr "a")).storages
      = [(Ty.tint, [Val.vstr "a"])] :=
  ⟨rfl, rfl⟩

/-- C2: the claim says parsing the dynamic-array document yields one array
field with value 1, 2, 3.  On the code, `parseArraySpecifier` returns 0 for
an empty size specifier without consuming the closing bracket (in spite of
its own dynamic-array comment), so the assignment-operator check of
`parseView` then fails on that leftover bracket: the parse emits the
scope-fatal no-assignment diagnostic and returns an empty table, for every
converter registry.  The sized, bracketed form of the same document does
produce the array field, isolating the slip to the empty specifier. -/
theorem c2_dynamic_array_parse_fails :
    (∀ ps : ParserSuiteT, parseStringT docArrayDyn ps
      = (Table.empty, [Diag.noAssignAfterType])) ∧
    (parseStringT docArraySized psInt).2 = [] ∧
    (parseStringT docArraySized psInt).1.getOr Ty.tintArr "xs" (Val.vintArr [])
      = Val.vintArr [1, 2, 3] :=
  ⟨fun _ => rfl, rfl, rfl⟩

/-- C3: parsing the section 6 prototype-copy document yields a table whose
field derived has exactly the fields x = 1, y = 20, z = 30 (the deep copy of
base with y overwritten and z added), while the field base still has exactly
x = 1, y = 2, and no diagnostic is emitted. -/
theorem c3_prototype_copy_example :
    (parseStringT docProto psInt).2 = [] ∧
    (parseStringT docProto psInt).1.names = ["base", "derived"] ∧
    (getTableField (parseStringT docProto psInt).1 "derived").names
      = ["x", "y", "z"] ∧
    (getTableField (parseStringT docProto psInt).1 "derived").getOr Ty.tint "x"
      (Val.vint 0) = Val.vint 1 ∧
    (getTableField (parseStringT docProto psInt).1 "derived").getOr Ty.tint "y"
      (Val.vint 0) = Val.vint 20 ∧
    (getTableField (parseStringT docProto psInt).1 "derived").getOr Ty.tint "z"
      (Val.vint 0) = Val.vint 30 ∧
    (getTableField (parseStringT docProto psInt).1 "base").names = ["x", "y"] ∧
    (getTableField (parseStringT docProto psInt).1 "base").getOr Ty.tint "x"
      (Val.vint 0) = Val.vint 1 ∧
    (getTableField (parseStringT docProto psInt).1 "base").getOr Ty.tint "y"
      (Val.vint 0) = Val.vint 2 :=
  ⟨rfl, rfl, rfl, rfl, rfl, rfl, rfl, rfl, rfl⟩

/-- C4: for every supported value type (the type of v), every name, every
value and every default of that type, `set` followed by `getOr` returns the
value just stored, on every well-formed table on which the `set` respects
the no-type-change caller contract. -/
theorem c4_set_getOr_roundtrip (t : Table) (n : String) (v d : Val)
    (hwf : TableWF t) (hok : setTyOk t n v) (_hd : tyOf d = tyOf v) :
    (t.set n v).getOr (tyOf v) n d = v :=
  getOr_set_eq t n v d hwf hok

/-- Witness for C4 at a concrete table, name, value and default. -/
theorem c4_set_getOr_roundtrip_witness :
    TableWF (Table.empty.set "a" (Val.vstr "s")) ∧
    setTyOk (Table.empty.set "a" (Val.vstr "s")) "b" (Val.vint 7) ∧
    ((Table.empty.set "a" (Val.vstr "s")).set "b" (Val.vint 7)).getOr
      (tyOf (Val.vint 7)) "b" (Val.vint 0) = Val.vint 7 :=
  ⟨by decide, by decide,
    c4_set_getOr_roundtrip (Table.empty.set "a" (Val.vstr "s")) "b" (Val.vint 7)
      (Val.vint 0) (by decide) (by decide) rfl⟩

/-- C5: on every well-formed table, `getAll` (the forEach of the spec)
produces exactly the name-value pairs of the fields whose stored type is the
requested one, in record (insertion) order, and none of any other stored
type - `fieldsOfTy` is that reference field list. -/
theorem c5_getAll_visits_exactly (t : Table) (τ : Ty) (hwf : TableWF t) :
    t.getAll τ = fieldsOfTy t τ :=
  getAll_eq_fieldsOfTy_aux t τ hwf

/-- Witness for C5 at a concrete three-field table of two types. -/
theorem c5_getAll_visits_exactly_witness :
    TableWF (((Table.empty.set "a" (Val.vint 1)).set "b" (Val.vstr "s")).set "c"
      (Val.vint 3)) ∧
    Table.getAll (((Table.empty.set "a" (Val.vint 1)).set "b"
      (Val.vstr "s")).set "c" (Val.vint 3)) Ty.tint =
    fieldsOfTy (((Table.empty.set "a" (Val.vint 1)).set "b"
      (Val.vstr "s")).set "c" (Val.vint 3)) Ty.tint :=
  ⟨by decide,
    c5_getAll_visits_exactly (((Table.empty.set "a" (Val.vint 1)).set "b"
      (Val.vstr "s")).set "c" (Val.vint 3)) Ty.tint (by decide)⟩

/-- C6 counterexample: registering two converters under the same type name
and resolving does NOT give the second one - `addParser` uses
`unordered_map::emplace`, which keeps an existing binding, so the claim of
last-write-wins replacement is false at this concrete registry. -/
theorem c6_reregister_resolves_first_cex :
    getTypeParser "int" (((ParserSuiteT.mk []).addParser "int"
      (.lamInt stoiT)).addParser "int" (.lamStr id)) ≠ some (.lamStr id) := by
  have h1 : getTypeParser "int" (((ParserSuiteT.mk []).addParser "int"
      (.lamInt stoiT)).addParser "int" (.lamStr id)) = some (.lamInt stoiT) := rfl
  rw [h1]
  intro h
  injection h with h2
  exact TypeParserT.noConfusion h2

/-- C6 amended: re-registering an existing type name leaves the prior
binding in place (first registration wins, the `emplace` of the second
registration is a no-op): for every registry in which the name was
previously unbound, after registering p1 and then p2 under the same name the
registry resolves the name to p1. -/
theorem c6_reregister_keeps_first (R : ParserSuiteT) (s : String)
    (p1 p2 : TypeParserT) (h : alookup R.typeParsers s = none) :
    getTypeParser s ((R.addParser s p1).addParser s p2) = some p1 := by
  have h1 : (R.addParser s p1).typeParsers = R.typeParsers ++ [(s, p1)] := by
    show aemplace R.typeParsers s p1 = R.typeParsers ++ [(s, p1)]
    rw [aemplace, h]
  have h2 : alookup (R.addParser s p1).typeParsers s = some p1 := by
    rw [h1, alookup_append_none _ h, alookup_singleton]
  have h3 : ((R.addParser s p1).addParser s p2).typeParsers
      = (R.addParser s p1).typeParsers := by
    show aemplace (R.addParser s p1).typeParsers s p2
      = (R.addParser s p1).typeParsers
    rw [aemplace, h2]
  show alookup ((R.addParser s p1).addParser s p2).typeParsers s = some p1
  rw [h3, h2]

/-- Witness for C6 at a concrete empty registry and two distinct parsers. -/
theorem c6_reregister_keeps_first_witness :
    alookup (ParserSuiteT.mk []).typeParsers "int" = none ∧
    getTypeParser "int" (((ParserSuiteT.mk []).addParser "int"
      (.lamInt stoiT)).addParser "int" (.lamStr id)) = some (.lamInt stoiT) :=
  ⟨rfl, c6_reregister_keeps_first (ParserSuiteT.mk []) "int" (.lamInt stoiT)
    (.lamStr id) rfl⟩

/-- C7: whenever the parser loop reaches a field whose key has a nonempty
type annotation but the cursor after the key does not start with the
assignment character, one loop step reports the scope-fatal no-assignment
diagnostic and immediately returns the table built so far for that scope
(every earlier field of the scope is retained in `res`), leaving the cursor
at the offending position. -/
theorem c7_missing_assign_scope_fatal (fuel : Nat) (ps : ParserSuiteT)
    (res : Table) (view : List Char) (name typeName : String) (arraySize : Int)
    (v3 : List Char)
    (h1 : view.isEmpty = false)
    (h2 : skipEndOfTable (skipWhitespace view) = none)
    (h3 : skipEndOfLine (skipWhitespace view) = (false, skipWhitespace view))
    (h4 : parseKey (skipWhitespace view) = (name, typeName, arraySize, v3))
    (h5 : typeName.isEmpty = false)
    (h6 : skipAssignmentOp v3 = none) :
    parseViewAux (fuel + 1) ps res view = (res, v3, [Diag.noAssignAfterType]) := by
  simp [parseViewAux, h1, h2, h3, h4, h5, h6]

/-- Witness for C7 on the spec example input with one earlier field already
parsed into the scope. -/
theorem c7_missing_assign_scope_fatal_witness :
    parseViewAux 1 psInt (Table.empty.set "y" (Val.vint 7)) ("x : int 3".toList)
      = (Table.empty.set "y" (Val.vint 7), ['3'], [Diag.noAssignAfterType]) :=
  c7_missing_assign_scope_fatal 0 psInt (Table.empty.set "y" (Val.vint 7))
    ("x : int 3".toList) "x" "int" (-1) ['3'] (by decide) (by decide) (by decide)
    (by decide) (by decide) (by decide)

/-- C8 counterexample: the claim says a stray closing brace at a scope with
no open table, or end of input with a table still open, is reported as a
diagnostic.  The code reports nothing in either scenario: both parses below
return with an empty diagnostic list (while indeed returning what was parsed
so far). -/
theorem c8_scope_end_reports_no_diag_cex :
    (parseStringT "\x7d leftover" psInt).2 = [] ∧
    (parseStringT "\x7d leftover" psInt).1.names = [] ∧
    (parseStringT "a = \x7b\n x : int = \"1\"\n" psInt).2 = [] ∧
    (parseStringT "a = \x7b\n x : int = \"1\"\n" psInt).1.names = ["a"] ∧
    (getTableField (parseStringT "a = \x7b\n x : int = \"1\"\n" psInt).1
      "a").getOr Ty.tint "x" (Val.vint 0) = Val.vint 1 :=
  ⟨rfl, rfl, rfl, rfl, rfl⟩

/-- C8 amended: a closing brace ends the current scope, returning the table
parsed so far with the rest of the view, and end of input ends the current
scope returning the table parsed so far - in both cases silently, with no
diagnostic emitted. -/
theorem c8_scope_end_silent (fuel : Nat) (ps : ParserSuiteT) (res : Table)
    (view rest : List Char)
    (h : skipEndOfTable (skipWhitespace view) = some rest) :
    parseViewAux (fuel + 1) ps res view = (res, rest, []) ∧
    parseViewAux fuel ps res [] = (res, [], []) := by
  constructor
  · have h1 : view.isEmpty = false := by
      cases view with
      | nil => simp [skipWhitespace, skipEndOfTable, skipChar] at h
      | cons c cs => rfl
    simp [parseViewAux, h1, h]
  · cases fuel with
    | zero => rfl
    | succ f => simp [parseViewAux]

/-- Witness for C8 on a stray closing brace followed by leftover input. -/
theorem c8_scope_end_silent_witness :
    parseViewAux 1 psInt (Table.empty.set "y" (Val.vint 7)) ("\x7dx".toList)
      = (Table.empty.set "y" (Val.vint 7), ['x'], []) ∧
    parseViewAux 0 psInt (Table.empty.set "y" (Val.vint 7)) []
      = (Table.empty.set "y" (Val.vint 7), [], []) :=
  c8_scope_end_silent 0 psInt (Table.empty.set "y" (Val.vint 7)) ("\x7dx".toList)
    ['x'] (by decide)

/-- C9 counterexample: the claim says every lexical primitive accesses only
positions strictly inside the remaining view.  The first primitive that
`parseString` runs on the one-space document is `skipWhitespace` on the view
of length 1, and its loop reads position 1 - the position one past the end
of the input (the NUL terminator of the `std::string` buffer), which is not
strictly inside the view. -/
theorem c9_reads_position_at_end_cex :
    skipWhitespaceHi [' '] = 1 ∧
    ¬ (skipWhitespaceHi [' '] < List.length [' ']) := by
  decide

/-- C9 amended: for every predicate that rejects the NUL terminator (as the
whitespace, line-break, name and digit predicates all do), every lexical
primitive accesses only positions at most one past the end of the remaining
view: the highest position read is bounded by the view length, the boundary
position being read exactly when the whole remaining view matches (or, for
`skipChar` and `skipLineBreak`, when the view is empty). -/
theorem c9_lexical_access_bounded (p : Char → Bool) (s : List Char)
    (_hp : p '\x00' = false) :
    parseWhileHi p s ≤ s.length ∧ skipWhitespaceHi s ≤ s.length ∧
    skipLineBreakHi s ≤ s.length ∧ skipCharHi s ≤ s.length := by
  have key : ∀ (q : Char → Bool) (l : List Char), parseWhileHi q l ≤ l.length := by
    intro q l
    induction l with
    | nil => simp [parseWhileHi]
    | cons c cs ih =>
      by_cases hq : q c
      · simp only [parseWhileHi, hq, if_true, List.length_cons]
        omega
      · simp [parseWhileHi, hq]
  exact ⟨key p s, key _ s, key _ s, by simp [skipCharHi]⟩

/-- Witness for C9 with the whitespace predicate on a two-character view. -/
theorem c9_lexical_access_bounded_witness :
    isWhitespace '\x00' = false ∧
    (parseWhileHi isWhitespace [' ', 'a'] ≤ List.length [' ', 'a'] ∧
     skipWhitespaceHi [' ', 'a'] ≤ List.length [' ', 'a'] ∧
     skipLineBreakHi [' ', 'a'] ≤ List.length [' ', 'a'] ∧
     skipCharHi [' ', 'a'] ≤ List.length [' ', 'a']) :=
  ⟨by decide, c9_lexical_access_bounded isWhitespace [' ', 'a'] (by decide)⟩

/-- C10: after any finite sequence of `set` operations on an initially empty
table in which no existing name is re-set with a different value type, the
table is well formed: names and records have equal length, the name map is
exactly the stored names mapped to their record indices, and every record
points at a live slot of an existing storage whose element type matches the
stored value. -/
theorem c10_set_sequence_invariants (ops : List (String × Val))
    (hok : opsOk Table.empty ops) : TableWF (applyOps Table.empty ops) :=
  tableWF_applyOps Table.empty ops tableWF_empty hok

/-- Witness for C10 on a sequence with one same-type overwrite. -/
theorem c10_set_sequence_invariants_witness :
    opsOk Table.empty [("a", Val.vint 1), ("a", Val.vint 2), ("b", Val.vstr "x")] ∧
    TableWF (applyOps Table.empty
      [("a", Val.vint 1), ("a", Val.vint 2), ("b", Val.vstr "x")]) :=
  ⟨by decide, c10_set_sequence_invariants
    [("a", Val.vint 1), ("a", Val.vint 2), ("b", Val.vstr "x")] (by decide)⟩
